import Mathlib

/-!
Shallow embedding of the incremental Lua-export decision engine of the
EmmyLuaIntelliSense Unreal Editor plugin (ULuaExportManager in
LuaExportManager.cpp), together with proofs about it.

Modelling conventions:
* `FString` paths and identifiers are modelled as `List Char` (`Str` below),
  so that the character-level operations of the source (`FindLastChar`,
  `Left`, `Mid`, `EndsWith`, `StartsWith`, `RightChop`) are explicit.
* Engine-provided primitives (file system reads, SHA-1 / MD5 digest
  rendering, `TryConvertLongPackageNameToFilename`, blueprint loading, the
  Lua code generators) are fields of an explicit environment record `Env`;
  the decision logic itself is translated statement by statement from the
  C++ source.
* `TMap` is modelled as an association list with `Add`-replaces-existing
  semantics (`hashAdd`) and first-match lookup (`hashFind`); `TSet` of
  strings is a duplicate-free list.
* The wall clock read by `FDateTime::Now().ToString()` is an explicit
  `nowStr` argument, and `FPlatformTime::Seconds()` an explicit `nowSec`
  argument, since both are reads of mutable ambient state.
-/

namespace EmmyLua

abbrev Str := List Char

/-- `FString::FindLastChar`: index of the last occurrence of `c`, if any. -/
def lastIndexOf (c : Char) : Str → Option Nat
  | [] => none
  | x :: xs =>
    match lastIndexOf c xs with
    | some j => some (j + 1)
    | none => if x = c then some 0 else none

/-- `TMap<FString,FString>::Find`: first-match association lookup. -/
def hashFind (cache : List (Str × String)) (k : Str) : Option String :=
  match cache with
  | [] => none
  | (k', v) :: rest => if k' = k then some v else hashFind rest k

/-- `TMap<FString,FString>::Add`: upsert, replacing an existing entry. -/
def hashAdd (cache : List (Str × String)) (k : Str) (v : String) :
    List (Str × String) :=
  match cache with
  | [] => [(k, v)]
  | (k', v') :: rest =>
    if k' = k then (k, v) :: rest else (k', v') :: hashAdd rest k v

abbrev HashCache := List (Str × String)

/-!
## Exclusion filter

`ULuaExportManager::ShouldExcludeFromExport` (LuaExportManager.cpp): exact
match against the loaded exclusion set, then repeated stripping at the last
`/` while the last `/` has index `> 0`.
-/

/-- The stripping loop of `ShouldExcludeFromExport`:
`while (CurrentPath.FindLastChar('/', i) && i > 0) { CurrentPath = CurrentPath.Left(i); if (ExcludedPaths.Contains(CurrentPath)) return true; }`.
The fuel argument is an upper bound on the iteration count; the loop
shortens the path every round, so `path.length` fuel is always enough. -/
def excludeLoop (rules : List Str) : Nat → Str → Bool
  | 0, _ => false
  | fuel + 1, cur =>
    match lastIndexOf '/' cur with
    | none => false
    | some i =>
      if i > 0 then
        let next := cur.take i
        if rules.contains next then true else excludeLoop rules fuel next
      else false

/-- `ULuaExportManager::ShouldExcludeFromExport`, with the lazily-loaded
static exclusion set passed explicitly as `rules`. -/
def ShouldExcludeFromExport (rules : List Str) (assetPath : Str) : Bool :=
  if rules.contains assetPath then true
  else excludeLoop rules assetPath.length assetPath

/-!
## Change cache: re-export decision and upsert

`ShouldReexportByHash`, `UpdateExportCacheByHash`, and the hash-cache load
filter of `LoadExportCache`.
-/

/-- `ULuaExportManager::ShouldReexportByHash`: re-export when there is no
cached entry, or the fresh hash differs from the cached one. -/
def ShouldReexportByHash (cache : HashCache) (assetPath : Str)
    (assetHash : String) : Bool :=
  match hashFind cache assetPath with
  | none => true
  | some cached => assetHash ≠ cached

/-- `ULuaExportManager::UpdateExportCacheByHash`: unconditional upsert into
the hash cache (the source performs no exclusion check here). -/
def UpdateExportCacheByHash (cache : HashCache) (assetPath : Str)
    (assetHash : String) : HashCache :=
  hashAdd cache assetPath assetHash

/-- One entry of the `LoadExportCache` loop over the parsed `"HashCache"`
JSON object: drop an excluded key (`ShouldExcludeFromExport`), drop an
empty hash string, insert the rest. -/
def loadCacheStep (rules : List Str) (acc : HashCache) (e : Str × String) :
    HashCache :=
  if ShouldExcludeFromExport rules e.1 then acc
  else if e.2 = "" then acc
  else hashAdd acc e.1 e.2

/-- The entry-processing loop of `ULuaExportManager::LoadExportCache`,
starting from the emptied in-memory cache. -/
def loadCacheEntries (rules : List Str) (entries : List (Str × String)) :
    HashCache :=
  entries.foldl (loadCacheStep rules) []

/-!
## Engine environment and content fingerprinter
-/

/-- Engine-supplied primitives consumed by the export manager.  `fileExists`
models `FPaths::FileExists`, `readFile` models
`FFileHelper::LoadFileToArray` (which can fail even for an existing file),
`sha1Hex` the SHA-1-digest-to-lowercase-hex rendering, `md5Hex`
`FMD5::HashAnsiString`, `toFilename` is
`FPackageName::TryConvertLongPackageNameToFilename` with extension
`.uasset`, and `contentDir` is `FPaths::ProjectContentDir()` (which ends in
a path separator, so `FPaths::Combine` is plain concatenation there). -/
structure Env where
  fileExists : Str → Bool
  readFile : Str → Option Str
  sha1Hex : Str → String
  md5Hex : Str → String
  toFilename : Str → Option Str
  contentDir : Str

/-- `ULuaExportManager::CalculateFileHash`: empty string when the file does
not exist or cannot be read, else the SHA-1 hex digest of its bytes. -/
def CalculateFileHash (env : Env) (filePath : Str) : String :=
  if env.fileExists filePath then
    match env.readFile filePath with
    | some data => env.sha1Hex data
    | none => ""
  else ""

/-- The blueprint object-path normalization shared by
`AddToPendingBlueprints` and `GetAssetHash(const FString&)`: find the last
`.`; if the part before it ends in `/` followed by the part after it, drop
the `.<ClassName>` suffix. -/
def normalizeAssetPath (p : Str) : Str :=
  match lastIndexOf '.' p with
  | some i =>
    let className := p.drop (i + 1)
    let withoutClass := p.take i
    if ('/' :: className) |>.isSuffixOf withoutClass then withoutClass else p
  | none => p

/-- `ULuaExportManager::GetAssetHash(const FString&)`.  `nowStr` is the
string rendering of `FDateTime::Now()` read in the fallback branch. -/
def GetAssetHash (env : Env) (nowStr : Str) (assetPath : Str) : String :=
  let normalized := normalizeAssetPath assetPath
  if ("/Game/".toList) |>.isPrefixOf normalized then
    let packageName := normalized.drop 6
    CalculateFileHash env (env.contentDir ++ packageName ++ ".uasset".toList)
  else if (("/".toList) |>.isPrefixOf normalized) && normalized.contains '/' then
    match env.toFilename normalized with
    | some assetFilePath => CalculateFileHash env assetFilePath
    | none => env.md5Hex (assetPath ++ '_' :: nowStr)
  else env.md5Hex (assetPath ++ '_' :: nowStr)

/-!
## Reflected-type models and structural hashes
-/

/-- `UObject`-level liveness state of a reflected object: `IsValid(...)` and
the `RF_BeginDestroyed` / `RF_FinishDestroyed` flags. -/
structure ObjState where
  isValidObj : Bool
  beginDestroyed : Bool
  finishDestroyed : Bool
deriving DecidableEq

/-- An `FProperty` as seen by the signature builders: its name and the name
of its property class (`Property->GetClass()->GetName()`). -/
structure PropM where
  name : Str
  typeName : Str
deriving DecidableEq

/-- A `UFunction` parameter; `isReturnParm` models `CPF_ReturnParm`. -/
structure ParamM where
  name : Str
  typeName : Str
  isReturnParm : Bool
deriving DecidableEq

/-- A `UFunction`: name, return property class name (none when
`GetReturnProperty()` is null), and iterated parameters.  List entries are
`Option`s because the source guards each iterated pointer against null. -/
structure FuncM where
  name : Str
  returnType : Option Str
  params : List (Option ParamM)
deriving DecidableEq

/-- The locally-declared shape of a `UClass` used by
`CalculateClassStructureHash` (iteration with `ExcludeSuper`). -/
structure ClassM where
  name : Str
  superName : Option Str
  props : List (Option PropM)
  funcs : List (Option FuncM)
deriving DecidableEq

/-- Locally-declared properties of a `UScriptStruct`. -/
structure StructM where
  props : List (Option PropM)
deriving DecidableEq

/-- Name/value pairs of a `UEnum` (`GetNameStringByIndex` /
`GetValueByIndex`). -/
structure EnumM where
  entries : List (Str × Int)
deriving DecidableEq

/-- Which concrete reflected kind a `UField` is, with the data each branch
of `GetAssetHash(const UField*)` reads. -/
inductive FieldKind where
  | classKind (c : ClassM)
  | structKind (s : StructM)
  | enumKind (e : EnumM)
  | otherField
deriving DecidableEq

/-- A `UField` as seen by the export manager.  `className` is
`Field->GetClass()->GetName()`, `packageName` is
`GetPackage()->GetName()` (empty for a null package), `nameThrows` models
an exception escaping `Field->GetName()`. -/
structure FieldM where
  obj : ObjState
  name : Str
  nameThrows : Bool
  className : Str
  pathName : Str
  packageName : Str
  kind : FieldKind
deriving DecidableEq

/-- One property item of the `CalculateClassStructureHash` signature:
`"Name:%s," "Type:%s," ";"`; a null iterated pointer contributes nothing. -/
def classPropPiece : Option PropM → Str
  | none => []
  | some p =>
    "Name:".toList ++ p.name ++ ",Type:".toList ++ p.typeName ++ ",;".toList

/-- One parameter item of a function signature:
`"ParamName:%s,ParamType:%s;"`, skipping null and return parameters. -/
def funcParamPiece : Option ParamM → Str
  | none => []
  | some p => if p.isReturnParm then []
      else "ParamName:".toList ++ p.name ++ ",ParamType:".toList ++
        p.typeName ++ ";".toList

/-- One function item of the `CalculateClassStructureHash` signature. -/
def classFuncPiece : Option FuncM → Str
  | none => []
  | some f =>
    "Name:".toList ++ f.name ++ ",".toList ++
      (match f.returnType with
       | some r => "ReturnType:".toList ++ r ++ ",".toList
       | none => "ReturnType:void,".toList) ++
      "Params:[".toList ++ (f.params.map funcParamPiece).flatten ++
      "],;".toList

/-- The deterministic signature string built by
`CalculateClassStructureHash` before hashing. -/
def classSignature (c : ClassM) : Str :=
  "ClassName:".toList ++ c.name ++ ";".toList ++
    (match c.superName with
     | some s => "ParentClass:".toList ++ s ++ ";".toList
     | none => "ParentClass:None;".toList) ++
    "Properties:[".toList ++ (c.props.map classPropPiece).flatten ++
    "];".toList ++
    "Functions:[".toList ++ (c.funcs.map classFuncPiece).flatten ++ "];".toList

/-- `ULuaExportManager::CalculateClassStructureHash`: empty string for a
null, invalid, or pending-destroy class, else the SHA-1 hex digest of the
UTF-8 bytes of the signature string. -/
def CalculateClassStructureHash (env : Env) : Option (ObjState × ClassM) → String
  | none => ""
  | some (st, c) =>
    if !st.isValidObj || st.beginDestroyed || st.finishDestroyed then ""
    else env.sha1Hex (classSignature c)

/-- One property item of the non-class field signature:
`"Name:%s,Type:%s;"`. -/
def fieldPropPiece : Option PropM → Str
  | none => []
  | some p =>
    "Name:".toList ++ p.name ++ ",Type:".toList ++ p.typeName ++ ";".toList

/-- The signature string built by `GetAssetHash(const UField*)` for
non-class fields. -/
def fieldSignature (f : FieldM) : Str :=
  "FieldType:".toList ++ f.className ++ ";FieldName:".toList ++ f.name ++
    ";".toList ++
    (match f.kind with
     | .structKind s =>
       "Properties:[".toList ++ (s.props.map fieldPropPiece).flatten ++
         "];".toList
     | _ => []) ++
    (match f.kind with
     | .enumKind e =>
       "EnumValues:[".toList ++
         (e.entries.map
           (fun en => "Name:".toList ++ en.1 ++ ",Value:".toList ++
             (toString en.2).toList ++ ";".toList)).flatten ++
         "];".toList
     | _ => [])

/-- `ULuaExportManager::GetAssetHash(const UField*)`: empty for null,
invalid, or pending-destroy fields; the structural class hash for classes;
otherwise the SHA-1 hex digest of the field signature. -/
def GetAssetHashField (env : Env) : Option FieldM → String
  | none => ""
  | some f =>
    if !f.obj.isValidObj || f.obj.beginDestroyed || f.obj.finishDestroyed then ""
    else
      match f.kind with
      | .classKind c => CalculateClassStructureHash env (some (f.obj, c))
      | _ => env.sha1Hex (fieldSignature f)

/-- `ULuaExportManager::IsValidFieldForExport`: null / invalidity / name
sanity checks guarding every native-type operation. -/
def IsValidFieldForExport : Option FieldM → Bool
  | none => false
  | some f =>
    if !f.obj.isValidObj then false
    else if f.nameThrows then false
    else if f.name.isEmpty || f.name = "None".toList ||
        f.name = "NULL".toList then false
    else if (".".toList).isPrefixOf f.name || (".".toList).isSuffixOf f.name ||
        (" ".toList).isPrefixOf f.name ||
        (" ".toList).isSuffixOf f.name then false
    else if f.name.length > 256 then false
    else true

/-!
## Memoized per-field hash cache

`GetCachedFieldHash` / `CleanupExpiredHashCache`.  The two parallel maps
`FieldHashCache` and `FieldHashCacheTimestamp` (keyed by field pointer,
modelled by the field path name) are kept in sync by the source, so they
are modelled as one association list of (key, hash, timestamp);
`FPlatformTime::Seconds()` is the explicit `nowSec` argument and
`HASH_CACHE_EXPIRE_TIME` is 300 seconds. -/

abbrev Memo := List (Str × String × Nat)

/-- `ULuaExportManager::CleanupExpiredHashCache`: drop entries older than
the expiry window. -/
def CleanupExpiredHashCache (nowSec : Nat) (memo : Memo) : Memo :=
  memo.filter (fun e => !(nowSec - e.2.2 > 300))

/-- First-match lookup in the memo. -/
def memoFind (memo : Memo) (k : Str) : Option (String × Nat) :=
  match memo with
  | [] => none
  | (k', v) :: rest => if k' = k then some v else memoFind rest k

/-- Upsert into the memo. -/
def memoAdd (memo : Memo) (k : Str) (h : String) (t : Nat) : Memo :=
  match memo with
  | [] => [(k, h, t)]
  | (k', v') :: rest =>
    if k' = k then (k, h, t) :: rest else (k', v') :: memoAdd rest k h t

/-- `ULuaExportManager::GetCachedFieldHash`: purge expired entries, serve a
still-fresh memoized hash, else recompute via `GetAssetHash(const UField*)`
and store it with the current time. -/
def GetCachedFieldHash (env : Env) (nowSec : Nat) (memo : Memo) :
    Option FieldM → String × Memo
  | none => ("", memo)
  | some f =>
    let memo1 := CleanupExpiredHashCache nowSec memo
    match memoFind memo1 f.pathName with
    | some (h, t) =>
      if nowSec - t < 300 then (h, memo1)
      else
        let fresh := GetAssetHashField env (some f)
        (fresh, memoAdd memo1 f.pathName fresh nowSec)
    | none =>
      let fresh := GetAssetHashField env (some f)
      (fresh, memoAdd memo1 f.pathName fresh nowSec)

/-!
## Manager state, pending-set tracker, and scan decision pass
-/

/-- The plugin settings the decision pass reads. -/
structure SettingsM where
  bExportBlueprintFiles : Bool
  bAutoStartScanOnStartup : Bool
deriving DecidableEq

/-- An `FAssetData`: its object path string and whether its asset class is
`UBlueprint` (`ULuaExportManager::IsBlueprint`). -/
structure AssetDataM where
  objectPath : Str
  isBlueprint : Bool
deriving DecidableEq

/-- The mutable state of `ULuaExportManager` the modelled operations touch:
the two pending collections, the persistent hash cache, the per-field memo,
and the output file system (directories and `.lua` file contents). -/
structure MgrState where
  pendingBP : List Str
  pendingNT : List Str
  cache : HashCache
  memo : Memo
  dirs : List Str
  files : List (Str × String)
deriving DecidableEq

/-- `ULuaExportManager::ShouldExportBlueprint` with `bLoad = false`, the
form used by `AddToPendingBlueprints` and the scan pass (the `bLoad = true`
branch loads the asset object and is unused by the modelled call sites). -/
def ShouldExportBlueprint (rules : List Str) (settings : SettingsM)
    (a : AssetDataM) : Bool :=
  if !a.isBlueprint then false
  else if ShouldExcludeFromExport rules a.objectPath then false
  else if !settings.bExportBlueprintFiles then false
  else true

/-- `ULuaExportManager::ShouldReexport(const FString&, const FString&)`:
fail open (re-export) when the file hash comes back empty, else defer to
the hash comparison. -/
def ShouldReexport (env : Env) (cache : HashCache)
    (assetPath assetFilePath : Str) : Bool :=
  let assetHash := CalculateFileHash env assetFilePath
  if assetHash = "" then true
  else ShouldReexportByHash cache assetPath assetHash

/-- `ULuaExportManager::AddToPendingBlueprints`: filter, dedup, normalize
the object path, resolve it to a package file, drop the asset when that
file does not exist, then decide via `ShouldReexport` and append to the
pending set.  Returns the source's boolean together with the new state. -/
def AddToPendingBlueprints (env : Env) (rules : List Str)
    (settings : SettingsM) (st : MgrState) (a : AssetDataM) :
    Bool × MgrState :=
  if !ShouldExportBlueprint rules settings a then (false, st)
  else if st.pendingBP.contains a.objectPath then (false, st)
  else
    let packageName := normalizeAssetPath a.objectPath
    match env.toFilename packageName with
    | none => (false, st)
    | some assetFilePath =>
      if !env.fileExists assetFilePath then (false, st)
      else if !ShouldReexport env st.cache a.objectPath assetFilePath then
        (false, st)
      else (true, { st with pendingBP := st.pendingBP ++ [a.objectPath] })

/-- The per-blueprint body of the decision loop in
`ULuaExportManager::OnAsyncScanCompleted`: pend the asset, or refresh its
cache entry when its hash is computable. -/
def scanBlueprintStep (env : Env) (rules : List Str) (settings : SettingsM)
    (nowStr : Str) (st : MgrState) (a : AssetDataM) : MgrState :=
  let r := AddToPendingBlueprints env rules settings st a
  if r.1 then r.2
  else
    let assetHash := GetAssetHash env nowStr a.objectPath
    if assetHash ≠ "" then
      { r.2 with cache := UpdateExportCacheByHash r.2.cache a.objectPath assetHash }
    else r.2

/-- The per-native-type body of the decision loop in
`OnAsyncScanCompleted`: skip invalid fields, pend stale ones, refresh the
cache entry of unchanged ones. -/
def scanNativeStep (env : Env) (nowSec : Nat) (st : MgrState)
    (f : Option FieldM) : MgrState :=
  match f with
  | none => st
  | some f' =>
    if !IsValidFieldForExport (some f') then st
    else
      let r := GetCachedFieldHash env nowSec st.memo (some f')
      let st1 := { st with memo := r.2 }
      if ShouldReexportByHash st1.cache f'.pathName r.1 then
        { st1 with pendingNT := st1.pendingNT ++ [f'.pathName] }
      else
        { st1 with cache := UpdateExportCacheByHash st1.cache f'.pathName r.1 }

/-- The decision portion of `OnAsyncScanCompleted`: empty both pending
collections, then run the blueprint loop and the native-type loop. -/
def scanPass (env : Env) (rules : List Str) (settings : SettingsM)
    (nowStr : Str) (nowSec : Nat) (st : MgrState)
    (blueprintAssets : List AssetDataM) (nativeTypes : List (Option FieldM)) :
    MgrState :=
  let st0 := { st with pendingBP := [], pendingNT := [] }
  let st1 := blueprintAssets.foldl (scanBlueprintStep env rules settings nowStr) st0
  nativeTypes.foldl (scanNativeStep env nowSec) st1

/-!
## File emission
-/

/-- `FPaths::Combine` of two non-empty fragments. -/
def combinePath (a b : Str) : Str := a ++ '/' :: b

/-- `ULuaExportManager::SaveFile`: resolve the target directory (creating
it when missing), and skip the write entirely when the existing file
already holds exactly the content being saved.  The platform write itself
is modelled as succeeding (the source only logs a failure). -/
def SaveFile (outputDir : Str) (st : MgrState) (moduleName fileName : Str)
    (content : String) : MgrState :=
  let directory :=
    if moduleName.isEmpty then outputDir else combinePath outputDir moduleName
  let st1 :=
    if st.dirs.contains directory then st
    else { st with dirs := st.dirs ++ [directory] }
  let filePath := combinePath directory (fileName ++ ".lua".toList)
  match hashFind st1.files filePath with
  | some existing =>
    if existing = content then st1
    else { st1 with files := hashAdd st1.files filePath content }
  | none => { st1 with files := hashAdd st1.files filePath content }

/-- A loaded `UBlueprint` as the export step sees it: its
`GetPathName()`, whether `GeneratedClass` is non-null, and the
`GetTypeName(GeneratedClass)` result. -/
structure BlueprintM where
  pathName : Str
  hasGeneratedClass : Bool
  typeName : Str
deriving DecidableEq

/-- The external Lua code generators (`FEmmyLuaCodeGenerator`): emitters
whose output the manager only tests for emptiness, plus `GetTypeName` for
native fields. -/
structure Gens where
  generateBlueprint : BlueprintM → String
  generateClass : ClassM → String
  generateStruct : StructM → String
  generateEnum : EnumM → String
  getTypeName : FieldM → Str

/-- `GetTypeName(...)` result with the `_C` suffix chopped
(`FileName.LeftChopInline(2)`). -/
def stripGeneratedSuffix (t : Str) : Str :=
  if "_C".toList |>.isSuffixOf t then t.take (t.length - 2) else t

/-- `ULuaExportManager::ExportBlueprint`: generate Lua code; when the
emitter produces output, save the file and refresh the hash cache; when it
produces none, log and change nothing. -/
def ExportBlueprint (env : Env) (gens : Gens) (outputDir : Str)
    (nowStr : Str) (st : MgrState) : Option BlueprintM → MgrState
  | none => st
  | some bp =>
    if !bp.hasGeneratedClass then st
    else
      let luaCode := gens.generateBlueprint bp
      if luaCode ≠ "" then
        let fileName := stripGeneratedSuffix bp.typeName
        let st1 := SaveFile outputDir st "/Game".toList fileName luaCode
        let blueprintHash := GetAssetHash env nowStr bp.pathName
        { st1 with
          cache := UpdateExportCacheByHash st1.cache bp.pathName blueprintHash }
      else st

/-- The emitter dispatch of `ExportNativeType`: the generated Lua code for
the field's concrete kind (empty for a field that is none of class, script
struct, or enum, mirroring the untouched `LuaCode` local). -/
def nativeLuaCode (gens : Gens) (f' : FieldM) : String :=
  match f'.kind with
  | .classKind c => if f'.obj.isValidObj then gens.generateClass c else ""
  | .structKind s => if f'.obj.isValidObj then gens.generateStruct s else ""
  | .enumKind e => if f'.obj.isValidObj then gens.generateEnum e else ""
  | .otherField => ""

/-- `ULuaExportManager::ExportNativeType`: generate Lua code for the
field's concrete kind; when output exists and the file name is sane, save
it and refresh the hash cache via the memoized field hash; otherwise log
and change nothing. -/
def ExportNativeType (env : Env) (gens : Gens) (outputDir : Str)
    (nowSec : Nat) (st : MgrState) (f : Option FieldM) : MgrState :=
  if !IsValidFieldForExport f then st
  else
    match f with
    | none => st
    | some f' =>
      let luaCode := nativeLuaCode gens f'
      if luaCode ≠ "" then
        let moduleName := f'.packageName
        let fileName := gens.getTypeName f'
        if fileName ≠ [] && fileName ≠ "Error".toList && fileName ≠ "Invalid".toList then
          let st1 := SaveFile outputDir st moduleName fileName luaCode
          let r := GetCachedFieldHash env nowSec st1.memo (some f')
          { st1 with
            memo := r.2
            cache := UpdateExportCacheByHash st1.cache f'.pathName r.1 }
        else st
      else st

/-- The pending-blueprint drain loop of
`ULuaExportManager::ExportIncremental`: load each pending path and export
the ones that load. -/
def exportBlueprintBatch (env : Env) (gens : Gens) (outputDir : Str)
    (nowStr : Str) (load : Str → Option BlueprintM) (st : MgrState)
    (paths : List Str) : MgrState :=
  paths.foldl
    (fun s p =>
      match load p with
      | some bp => ExportBlueprint env gens outputDir nowStr s (some bp)
      | none => s)
    st

/-!
## Frame-sliced drain

`ProcessFramedStep` / `ProcessFramedStepWrapper`: two cursors into the
snapshot arrays `ScannedBlueprintAssets` / `ScannedNativeTypes`, a shared
per-invocation budget of `ItemsPerFrame = 5`, and a boolean "more work
remains" result.  The progress-notification text updates are display-only
and not modelled.
-/

/-- The framed-drain state: the in-progress flag, the two snapshot arrays,
the two cursors, and the manager state mutated by the per-item exports. -/
structure FramedState where
  inProgress : Bool
  bpAssets : List AssetDataM
  ntTypes : List (Option FieldM)
  bpIdx : Nat
  ntIdx : Nat
  mgr : MgrState

/-- One blueprint item of the framed drain:
`Cast<UBlueprint>(AssetData.GetAsset())` then `ExportBlueprint`. -/
def processFramedBlueprint (env : Env) (gens : Gens) (outputDir : Str)
    (nowStr : Str) (load : Str → Option BlueprintM) (st : MgrState)
    (a : AssetDataM) : MgrState :=
  match load a.objectPath with
  | some bp => ExportBlueprint env gens outputDir nowStr st (some bp)
  | none => st

/-- The first `while` loop of `ProcessFramedStep`: consume blueprint items
while the blueprint cursor is in range and budget remains.  Returns the new
state and the unconsumed budget. -/
def frameLoopBP (env : Env) (gens : Gens) (outputDir : Str) (nowStr : Str)
    (load : Str → Option BlueprintM) : Nat → FramedState → FramedState × Nat
  | 0, fs => (fs, 0)
  | budget + 1, fs =>
    if h : fs.bpIdx < fs.bpAssets.length then
      let a := fs.bpAssets.get ⟨fs.bpIdx, h⟩
      let mgr' := processFramedBlueprint env gens outputDir nowStr load fs.mgr a
      frameLoopBP env gens outputDir nowStr load budget
        { fs with mgr := mgr', bpIdx := fs.bpIdx + 1 }
    else (fs, budget + 1)

/-- The second `while` loop of `ProcessFramedStep`: consume native-type
items with the remaining budget. -/
def frameLoopNT (env : Env) (gens : Gens) (outputDir : Str) (nowSec : Nat) :
    Nat → FramedState → FramedState × Nat
  | 0, fs => (fs, 0)
  | budget + 1, fs =>
    if h : fs.ntIdx < fs.ntTypes.length then
      let f := fs.ntTypes.get ⟨fs.ntIdx, h⟩
      let mgr' := ExportNativeType env gens outputDir nowSec fs.mgr f
      frameLoopNT env gens outputDir nowSec budget
        { fs with mgr := mgr', ntIdx := fs.ntIdx + 1 }
    else (fs, budget + 1)

/-- `ULuaExportManager::ProcessFramedStep`: no-op returning `false` when
framed processing is not in progress; otherwise run both loops under the
shared 5-item budget and return `true` exactly when work remains. -/
def ProcessFramedStep (env : Env) (gens : Gens) (outputDir : Str)
    (nowStr : Str) (nowSec : Nat) (load : Str → Option BlueprintM)
    (fs : FramedState) : Bool × FramedState :=
  if !fs.inProgress then (false, fs)
  else
    let r1 := frameLoopBP env gens outputDir nowStr load 5 fs
    let r2 := frameLoopNT env gens outputDir nowSec r1.2 r1.1
    let fs2 := r2.1
    if fs2.bpIdx ≥ fs2.bpAssets.length && fs2.ntIdx ≥ fs2.ntTypes.length then
      (false, fs2)
    else (true, fs2)

/-!
## Concrete sample data used by witnesses and counterexamples
-/

/-- The empty manager state. -/
def mgr0 : MgrState :=
  { pendingBP := [], pendingNT := [], cache := [], memo := [], dirs := [], files := [] }

/-- Settings with blueprint export enabled and manual scanning. -/
def settingsOn : SettingsM :=
  { bExportBlueprintFiles := true, bAutoStartScanOnStartup := false }

/-- A sample environment holding exactly one asset file
`Content/F.uasset`, with an injective stand-in for the MD5 digest and a
constant stand-in for the SHA-1 digest. -/
def envGame : Env where
  fileExists := fun p => p = "Content/F.uasset".toList
  readFile := fun p =>
    if p = "Content/F.uasset".toList then some "data".toList else none
  sha1Hex := fun _ => "aaaa"
  md5Hex := fun p => String.mk p
  toFilename := fun p =>
    if p = "/Game/F".toList then some "Content/F.uasset".toList else none
  contentDir := "Content/".toList

/-- A sample environment with no files on disk at all. -/
def envMissing : Env where
  fileExists := fun _ => false
  readFile := fun _ => none
  sha1Hex := fun _ => "aaaa"
  md5Hex := fun p => String.mk p
  toFilename := fun p => some (p ++ ".uasset".toList)
  contentDir := "Content/".toList

/-- A sample environment where every file exists but no file can be read. -/
def envUnreadable : Env where
  fileExists := fun _ => true
  readFile := fun _ => none
  sha1Hex := fun _ => "aaaa"
  md5Hex := fun p => String.mk p
  toFilename := fun p => some (p ++ ".uasset".toList)
  contentDir := "Content/".toList

/-- The sample blueprint asset backed by `Content/F.uasset`. -/
def assetGame : AssetDataM := { objectPath := "/Game/F.F".toList, isBlueprint := true }

/-- A live sample native field of neither class, struct, nor enum kind. -/
def fieldPlain : FieldM :=
  { obj := { isValidObj := true, beginDestroyed := false, finishDestroyed := false }
    name := "T".toList
    nameThrows := false
    className := "Class".toList
    pathName := "/Script/M.T".toList
    packageName := "/Script/M".toList
    kind := .otherField }

/-- `fieldPlain` flagged as begin-destroyed. -/
def fieldDestroyed : FieldM :=
  { fieldPlain with
    obj := { isValidObj := true, beginDestroyed := true, finishDestroyed := false } }

/-- A manager state whose hash cache already holds the current
fingerprints of the sample blueprint and the sample native field. -/
def stUnchanged : MgrState :=
  { mgr0 with
    cache := [("/Game/F.F".toList, "aaaa"), ("/Script/M.T".toList, "aaaa")] }

/-- A manager state whose output tree already holds `Out/M/F.lua` with
content `"c"`. -/
def mgrSaved : MgrState :=
  { mgr0 with
    dirs := ["Out/M".toList]
    files := [("Out/M/F.lua".toList, "c")] }

/-- Emitters that always produce empty output, and a trivial type-name
resolver. -/
def gensEmpty : Gens :=
  { generateBlueprint := fun _ => ""
    generateClass := fun _ => ""
    generateStruct := fun _ => ""
    generateEnum := fun _ => ""
    getTypeName := fun _ => [] }

/-- A sample loaded blueprint with a generated class. -/
def bpSample : BlueprintM :=
  { pathName := "/Game/F.F".toList, hasGeneratedClass := true, typeName := "F_C".toList }

/-- The framed-drain scenario state: 12 pending blueprint assets, no
pending native types, cursors at the start. -/
def framed12 : FramedState :=
  { inProgress := true
    bpAssets := List.replicate 12 assetGame
    ntTypes := []
    bpIdx := 0
    ntIdx := 0
    mgr := mgr0 }

/-- One framed-drain invocation under the sample environment (the item
processing itself loads nothing, leaving the manager state unchanged). -/
def framedRun (fs : FramedState) : Bool × FramedState :=
  ProcessFramedStep envGame gensEmpty "Out".toList "T".toList 0
    (fun _ => none) fs

/-!
## Helper lemmas
-/

theorem hashFind_hashAdd_self (m : HashCache) (k : Str) (v : String) :
    hashFind (hashAdd m k v) k = some v := by
  induction m with
  | nil => simp [hashAdd, hashFind]
  | cons e rest ih =>
    obtain ⟨e1, e2⟩ := e
    unfold hashAdd
    by_cases h : e1 = k
    · rw [if_pos h]
      unfold hashFind
      rw [if_pos rfl]
    · rw [if_neg h]
      unfold hashFind
      rw [if_neg h]
      exact ih

theorem hashFind_hashAdd_ne (m : HashCache) (k k' : Str) (v : String)
    (h : k' ≠ k) : hashFind (hashAdd m k v) k' = hashFind m k' := by
  have hk : ¬(k = k') := fun hh => h hh.symm
  induction m with
  | nil => simp [hashAdd, hashFind, hk]
  | cons e rest ih =>
    obtain ⟨e1, e2⟩ := e
    unfold hashAdd
    by_cases he : e1 = k
    · rw [if_pos he]
      unfold hashFind
      rw [if_neg hk, if_neg (fun hh : e1 = k' => hk (he ▸ hh))]
    · rw [if_neg he]
      unfold hashFind
      by_cases he' : e1 = k'
      · rw [if_pos he', if_pos he']
      · rw [if_neg he', if_neg he']
        exact ih

theorem hashFind_hashAdd_of_find (m : HashCache) (k k' : Str) (v : String)
    (h : hashFind m k = some v) :
    hashFind (hashAdd m k v) k' = hashFind m k' := by
  by_cases hk : k' = k
  · subst hk
    rw [hashFind_hashAdd_self, h]
  · exact hashFind_hashAdd_ne m k k' v hk

theorem memoFind_mem (m : Memo) (k : Str) (v : String × Nat)
    (h : memoFind m k = some v) : (k, v) ∈ m := by
  induction m with
  | nil => simp [memoFind] at h
  | cons e rest ih =>
    obtain ⟨e1, e2⟩ := e
    unfold memoFind at h
    by_cases he : e1 = k
    · subst he
      rw [if_pos rfl] at h
      cases h
      exact List.mem_cons_self _ _
    · rw [if_neg he] at h
      exact List.mem_cons_of_mem _ (ih h)

theorem mem_memoAdd (m : Memo) (k : Str) (h : String) (t : Nat)
    (e : Str × String × Nat) (he : e ∈ memoAdd m k h t) :
    e = (k, h, t) ∨ e ∈ m := by
  induction m with
  | nil =>
    unfold memoAdd at he
    rcases List.mem_cons.mp he with h1 | h1
    · left; exact h1
    · cases h1
  | cons e' rest ih =>
    obtain ⟨a, b⟩ := e'
    unfold memoAdd at he
    by_cases hk : a = k
    · rw [if_pos hk] at he
      rcases List.mem_cons.mp he with h1 | h1
      · left; exact h1
      · right; exact List.mem_cons_of_mem _ h1
    · rw [if_neg hk] at he
      rcases List.mem_cons.mp he with h1 | h1
      · right; rw [h1]; exact List.mem_cons_self _ _
      · rcases ih h1 with h2 | h2
        · left; exact h2
        · right; exact List.mem_cons_of_mem _ h2

/-!
## Characterization of the exclusion filter
-/

theorem lastIndexOf_eq_none (c : Char) (s : Str)
    (h : lastIndexOf c s = none) : ∀ k : Nat, s[k]? ≠ some c := by
  induction s with
  | nil => intro k; simp
  | cons x xs ih =>
    intro k
    unfold lastIndexOf at h
    cases hx : lastIndexOf c xs with
    | some j => rw [hx] at h; cases h
    | none =>
      rw [hx] at h
      have hxc : ¬x = c := by
        by_contra hcon
        rw [if_pos hcon] at h
        cases h
      cases k with
      | zero =>
        rw [List.getElem?_cons_zero]
        intro hh
        exact hxc (Option.some.inj hh)
      | succ k' =>
        rw [List.getElem?_cons_succ]
        exact ih hx k'

theorem lastIndexOf_eq_some (c : Char) (s : Str) (i : Nat)
    (h : lastIndexOf c s = some i) :
    i < s.length ∧ s[i]? = some c ∧ ∀ j : Nat, i < j → s[j]? ≠ some c := by
  induction s generalizing i with
  | nil => cases h
  | cons x xs ih =>
    unfold lastIndexOf at h
    cases hx : lastIndexOf c xs with
    | some j =>
      rw [hx] at h
      cases h
      rcases ih j hx with ⟨hlen, hget, hmax⟩
      refine ⟨?_, ?_, ?_⟩
      · rw [List.length_cons]
        exact Nat.succ_lt_succ hlen
      · rw [List.getElem?_cons_succ]
        exact hget
      · intro k hk
        cases k with
        | zero => omega
        | succ k' =>
          rw [List.getElem?_cons_succ]
          exact hmax k' (Nat.lt_of_succ_lt_succ hk)
    | none =>
      rw [hx] at h
      by_cases hxc : x = c
      · rw [if_pos hxc] at h
        cases h
        refine ⟨by simp, ?_, ?_⟩
        · rw [List.getElem?_cons_zero, hxc]
        · intro k hk
          cases k with
          | zero => omega
          | succ k' =>
            rw [List.getElem?_cons_succ]
            exact lastIndexOf_eq_none c xs hx k'
      · rw [if_neg hxc] at h
        cases h

theorem excludeLoop_iff (rules : List Str) :
    ∀ (fuel : Nat) (s : Str), s.length ≤ fuel →
      (excludeLoop rules fuel s = true ↔
        ∃ k, 0 < k ∧ k < s.length ∧ s[k]? = some '/' ∧ s.take k ∈ rules) := by
  intro fuel
  induction fuel with
  | zero =>
    intro s hs
    have hnil : s = [] := List.length_eq_zero.mp (Nat.le_zero.mp hs)
    subst hnil
    simp [excludeLoop]
  | succ n ih =>
    intro s hs
    unfold excludeLoop
    cases hL : lastIndexOf '/' s with
    | none =>
      simp only [Bool.false_eq_true, false_iff]
      rintro ⟨k, -, -, hget, -⟩
      exact lastIndexOf_eq_none '/' s hL k hget
    | some i =>
      rcases lastIndexOf_eq_some '/' s i hL with ⟨hilen, higet, hmax⟩
      show (if i > 0 then
              (if rules.contains (List.take i s) = true then true
               else excludeLoop rules n (List.take i s))
            else false) = true ↔ _
      by_cases hi : i > 0
      · rw [if_pos hi]
        have htlen : (s.take i).length = i := by
          rw [List.length_take]
          omega
        by_cases hc : rules.contains (s.take i)
        · rw [if_pos hc]
          exact iff_of_true rfl ⟨i, hi, hilen, higet, List.elem_iff.mp hc⟩
        · rw [if_neg hc, ih (s.take i) (by rw [htlen]; omega)]
          constructor
          · rintro ⟨k, hk0, hklt, hkget, hkmem⟩
            rw [htlen] at hklt
            refine ⟨k, hk0, by omega, ?_, ?_⟩
            · rw [← List.getElem?_take_of_lt hklt]; exact hkget
            · rw [List.take_take, Nat.min_eq_left (Nat.le_of_lt hklt)] at hkmem
              exact hkmem
          · rintro ⟨k, hk0, hklt, hkget, hkmem⟩
            have hki : k ≤ i := by
              by_contra hcon
              exact hmax k (by omega) hkget
            have hkne : k ≠ i := by
              intro hcon
              subst hcon
              exact hc (List.elem_iff.mpr hkmem)
            have hklti : k < i := by omega
            refine ⟨k, hk0, by rw [htlen]; omega, ?_, ?_⟩
            · rw [List.getElem?_take_of_lt hklti]; exact hkget
            · rw [List.take_take, Nat.min_eq_left (Nat.le_of_lt hklti)]
              exact hkmem
      · rw [if_neg hi]
        refine iff_of_false (by intro hcon; cases hcon) ?_
        rintro ⟨k, hk0, -, hget, -⟩
        have hi0 : i = 0 := by omega
        exact hmax k (by omega) hget

/-- C3: `ShouldExcludeFromExport` returns true exactly when the identifier
equals a loaded exclusion rule, or some prefix obtained by repeatedly
stripping at the last `/` (stopping before the leading `/`) equals a rule;
in particular with rule `/A/B` the identifiers `/A/B` and `/A/B/C` are
excluded while `/A/Bc` and `/A` are not. -/
theorem shouldExcludeFromExport_iff_and_examples :
    (∀ (rules : List Str) (s : Str),
      ShouldExcludeFromExport rules s = true ↔
        s ∈ rules ∨
          ∃ k, 0 < k ∧ k < s.length ∧ s[k]? = some '/' ∧ s.take k ∈ rules)
    ∧ ShouldExcludeFromExport ["/A/B".toList] "/A/B".toList = true
    ∧ ShouldExcludeFromExport ["/A/B".toList] "/A/B/C".toList = true
    ∧ ShouldExcludeFromExport ["/A/B".toList] "/A/Bc".toList = false
    ∧ ShouldExcludeFromExport ["/A/B".toList] "/A".toList = false := by
  refine ⟨?_, by decide, by decide, by decide, by decide⟩
  intro rules s
  unfold ShouldExcludeFromExport
  by_cases hc : rules.contains s
  · rw [if_pos hc]
    exact iff_of_true rfl (Or.inl (List.elem_iff.mp hc))
  · rw [if_neg hc, excludeLoop_iff rules s.length s le_rfl]
    constructor
    · intro h; right; exact h
    · rintro (h | h)
      · exact absurd (List.elem_iff.mpr h) hc
      · exact h

/-- C1: the hash-mode re-export decision returns true exactly when no
cached fingerprint exists for the identifier or the cached fingerprint
differs from the fresh one (plain string inequality). -/
theorem shouldReexportByHash_iff (cache : HashCache) (assetPath : Str)
    (fresh : String) :
    ShouldReexportByHash cache assetPath fresh = true ↔
      hashFind cache assetPath = none ∨
        ∃ cached, hashFind cache assetPath = some cached ∧ cached ≠ fresh := by
  unfold ShouldReexportByHash
  cases h : hashFind cache assetPath with
  | none => simp
  | some cached =>
    simp only [h, Option.some.injEq, decide_eq_true_eq, ne_eq]
    constructor
    · intro hne
      right
      exact ⟨cached, rfl, fun hh => hne hh.symm⟩
    · rintro (hno | ⟨c, hc, hne⟩)
      · cases hno
      · cases hc
        exact fun hh => hne hh.symm

/-- C8: a reflected type flagged as being in a pending-destroy state
(begin-destroyed or finish-destroyed) always yields the Empty fingerprint,
never a non-empty fingerprint string. -/
theorem getAssetHashField_pendingDestroy (env : Env) (f : FieldM)
    (h : f.obj.beginDestroyed = true ∨ f.obj.finishDestroyed = true) :
    GetAssetHashField env (some f) = "" := by
  unfold GetAssetHashField
  rcases h with h | h <;> simp [h]

/-- Witness for C8 at a concrete begin-destroyed field. -/
theorem getAssetHashField_pendingDestroy_witness :
    GetAssetHashField envGame (some fieldDestroyed) = "" :=
  getAssetHashField_pendingDestroy envGame fieldDestroyed (Or.inl rfl)

/-- C2 counterexample: `assetGame` is an exportable blueprint candidate
whose backing file does not exist under `envMissing` (so its file
fingerprint is Empty), yet `AddToPendingBlueprints` returns false and the
pending collection stays empty — the asset is dropped, not pended. -/
theorem addToPendingBlueprints_missingFile_counterexample :
    ShouldExportBlueprint [] settingsOn assetGame = true
    ∧ envMissing.toFilename (normalizeAssetPath assetGame.objectPath) =
        some "/Game/F.uasset".toList
    ∧ envMissing.fileExists "/Game/F.uasset".toList = false
    ∧ CalculateFileHash envMissing "/Game/F.uasset".toList = ""
    ∧ (AddToPendingBlueprints envMissing [] settingsOn mgr0 assetGame).1 = false
    ∧ (AddToPendingBlueprints envMissing [] settingsOn mgr0 assetGame).2.pendingBP
        = [] := by
  refine ⟨by decide, by decide, by decide, by decide, by decide, by decide⟩

/-- C2 amended: a candidate blueprint whose backing file does not exist is
dropped by `AddToPendingBlueprints` (returns false, state unchanged); the
fail-open behaviour applies one level deeper: when the file exists but
cannot be read, the fingerprint is Empty, `ShouldReexport` returns true,
and the identifier is appended to the pending collection. -/
theorem addToPendingBlueprints_missing_vs_unreadable :
    (∀ (env : Env) (rules : List Str) (settings : SettingsM) (st : MgrState)
        (a : AssetDataM) (fp : Str),
      env.toFilename (normalizeAssetPath a.objectPath) = some fp →
      env.fileExists fp = false →
      AddToPendingBlueprints env rules settings st a = (false, st))
    ∧ (∀ (env : Env) (rules : List Str) (settings : SettingsM) (st : MgrState)
        (a : AssetDataM) (fp : Str),
      ShouldExportBlueprint rules settings a = true →
      st.pendingBP.contains a.objectPath = false →
      env.toFilename (normalizeAssetPath a.objectPath) = some fp →
      env.fileExists fp = true →
      env.readFile fp = none →
      AddToPendingBlueprints env rules settings st a =
        (true, { st with pendingBP := st.pendingBP ++ [a.objectPath] })) := by
  constructor
  · intro env rules settings st a fp hconv hmiss
    by_cases h1 : ShouldExportBlueprint rules settings a = true
    · by_cases h2 : a.objectPath ∈ st.pendingBP
      · simp [AddToPendingBlueprints, h1, h2]
      · simp [AddToPendingBlueprints, h1, h2, hconv, hmiss]
    · simp [AddToPendingBlueprints, h1]
  · intro env rules settings st a fp h1 h2 hconv hex hread
    have h2' : a.objectPath ∉ st.pendingBP := by simpa using h2
    have hhash : CalculateFileHash env fp = "" := by
      unfold CalculateFileHash
      simp [hex, hread]
    have hre : ShouldReexport env st.cache a.objectPath fp = true := by
      unfold ShouldReexport
      simp [hhash]
    simp [AddToPendingBlueprints, h1, h2', hconv, hex, hre]

/-- Witness for the C2 amended theorem: under `envUnreadable` the sample
asset's file exists but cannot be read, and the asset is pended. -/
theorem addToPendingBlueprints_missing_vs_unreadable_witness :
    AddToPendingBlueprints envUnreadable [] settingsOn mgr0 assetGame =
      (true, { mgr0 with pendingBP := [assetGame.objectPath] }) :=
  addToPendingBlueprints_missing_vs_unreadable.2 envUnreadable [] settingsOn
    mgr0 assetGame "/Game/F.uasset".toList (by decide) (by decide) (by decide)
    (by decide) (by decide)

/-- C4 counterexample: with the exclusion rule `/Game/F.F`, the sample
asset's identifier is excluded, yet the scan pass's no-export branch
re-adds a cache entry for it: the "no cache entry has an excluded
identifier" invariant is not preserved, because `UpdateExportCacheByHash`
performs no exclusion check. -/
theorem excludedIdentifierReadded_counterexample :
    ShouldExcludeFromExport ["/Game/F.F".toList] assetGame.objectPath = true
    ∧ hashFind
        (scanBlueprintStep envGame ["/Game/F.F".toList] settingsOn "T".toList
          mgr0 assetGame).cache
        assetGame.objectPath = some "aaaa" := by
  refine ⟨by decide, by decide⟩

/-- Helper for C4: the `LoadExportCache` loop never produces an entry for
an excluded key, whatever the accumulator already (not) holds for it. -/
theorem loadCacheEntries_go_excluded (rules : List Str)
    (entries : List (Str × String)) (k : Str) (acc : HashCache)
    (hk : ShouldExcludeFromExport rules k = true)
    (hacc : hashFind acc k = none) :
    hashFind (entries.foldl (loadCacheStep rules) acc) k = none := by
  induction entries generalizing acc with
  | nil => exact hacc
  | cons e rest ih =>
    rw [List.foldl_cons]
    apply ih
    by_cases h1 : ShouldExcludeFromExport rules e.1 = true
    · simpa [loadCacheStep, h1] using hacc
    · by_cases h2 : e.2 = ""
      · simpa [loadCacheStep, h1, h2] using hacc
      · have hne : k ≠ e.1 := by
          intro hh
          rw [hh] at hk
          exact h1 hk
        simp only [loadCacheStep, h1, if_false, h2, Bool.false_eq_true]
        rw [hashFind_hashAdd_ne _ _ _ _ hne]
        exact hacc

/-- C4 amended: the cache upsert `UpdateExportCacheByHash` is
unconditional — it has no exclusion check and always installs the entry —
and excluded identifiers are only filtered when the cache is loaded:
`LoadExportCache` never produces an entry whose key is excluded, but scan
operations can re-add one afterwards. -/
theorem updateUnconditional_loadFiltersExcluded :
    (∀ (rules : List Str) (entries : List (Str × String)) (k : Str),
      ShouldExcludeFromExport rules k = true →
      hashFind (loadCacheEntries rules entries) k = none)
    ∧ (∀ (cache : HashCache) (k : Str) (v : String),
      hashFind (UpdateExportCacheByHash cache k v) k = some v) := by
  constructor
  · intro rules entries k hk
    exact loadCacheEntries_go_excluded rules entries k [] hk rfl
  · intro cache k v
    exact hashFind_hashAdd_self cache k v

/-- Witness for the C4 amended theorem at concrete inputs. -/
theorem updateUnconditional_loadFiltersExcluded_witness :
    hashFind
        (loadCacheEntries ["/A".toList]
          [("/A".toList, "x"), ("/B".toList, "y")]) "/A".toList = none
    ∧ hashFind (UpdateExportCacheByHash [] "/A".toList "h") "/A".toList =
        some "h" :=
  ⟨updateUnconditional_loadFiltersExcluded.1 _ _ _ (by decide),
   updateUnconditional_loadFiltersExcluded.2 [] _ _⟩

/-- C5 counterexample: the fallback branch of the identifier-string
fingerprint mixes the current timestamp into the digest, so two calls in
the same file-system state but at different clock readings return
different strings (here with an injective digest stand-in). -/
theorem getAssetHash_clockDependent_counterexample :
    GetAssetHash envGame "t1".toList "X".toList ≠
      GetAssetHash envGame "t2".toList "X".toList := by
  decide

/-- C5 amended: fingerprint computation is deterministic for file-backed
identifier shapes (a normalized `/Game/`-prefixed path, or a
slash-prefixed path the engine can resolve to a package file) — the clock
never enters the result — and the memoized structural hash of a reflected
type is likewise clock-independent; only the fallback shape mixes the
current time into its digest. -/
theorem getAssetHash_fileBacked_deterministic :
    (∀ (env : Env) (p : Str) (now1 now2 : Str),
      (("/Game/".toList).isPrefixOf (normalizeAssetPath p) = true ∨
        ((("/".toList).isPrefixOf (normalizeAssetPath p) &&
            (normalizeAssetPath p).contains '/') = true ∧
          env.toFilename (normalizeAssetPath p) ≠ none)) →
      GetAssetHash env now1 p = GetAssetHash env now2 p)
    ∧ (∀ (env : Env) (t1 t2 : Nat) (f : FieldM),
      (GetCachedFieldHash env t1 [] (some f)).1 =
        (GetCachedFieldHash env t2 [] (some f)).1) := by
  constructor
  · intro env p now1 now2 h
    simp only [GetAssetHash]
    by_cases hg : ("/Game/".toList).isPrefixOf (normalizeAssetPath p) = true
    · rw [if_pos hg, if_pos hg]
    · rw [if_neg hg, if_neg hg]
      rcases h with h | ⟨hslash, hconv⟩
      · exact absurd h hg
      · rw [if_pos hslash, if_pos hslash]
        rcases Option.ne_none_iff_exists.mp hconv with ⟨fp, hfp⟩
        rw [← hfp]
  · intro env t1 t2 f
    rfl

/-- Witness for the C5 amended theorem: the sample `/Game/` blueprint's
fingerprint is the same at two different clock readings. -/
theorem getAssetHash_fileBacked_deterministic_witness :
    GetAssetHash envGame "t1".toList assetGame.objectPath =
      GetAssetHash envGame "t2".toList assetGame.objectPath :=
  getAssetHash_fileBacked_deterministic.1 envGame assetGame.objectPath
    "t1".toList "t2".toList (Or.inl (by decide))

/-- Helper for C10: when the target file already holds exactly the content
being saved and its directory exists, `SaveFile` changes nothing. -/
theorem saveFile_noWrite (outputDir : Str) (st : MgrState)
    (moduleName fileName : Str) (content : String)
    (hdir : st.dirs.contains
      (if moduleName.isEmpty then outputDir
       else combinePath outputDir moduleName) = true)
    (hfind : hashFind st.files
      (combinePath
        (if moduleName.isEmpty then outputDir
         else combinePath outputDir moduleName)
        (fileName ++ ".lua".toList)) = some content) :
    SaveFile outputDir st moduleName fileName content = st := by
  simp only [SaveFile, hdir, if_true, hfind]

/-- Helper for C10: after any `SaveFile`, the target directory is present,
the file holds the saved content, and nothing else of the state changed. -/
theorem saveFile_spec (outputDir : Str) (st : MgrState)
    (moduleName fileName : Str) (content : String) :
    ∃ fls : List (Str × String),
      SaveFile outputDir st moduleName fileName content =
        { st with
          dirs :=
            if st.dirs.contains
                (if moduleName.isEmpty then outputDir
                 else combinePath outputDir moduleName) = true
            then st.dirs
            else st.dirs ++
              [if moduleName.isEmpty then outputDir
               else combinePath outputDir moduleName]
          files := fls }
      ∧ hashFind fls
          (combinePath
            (if moduleName.isEmpty then outputDir
             else combinePath outputDir moduleName)
            (fileName ++ ".lua".toList)) = some content := by
  simp only [SaveFile]
  by_cases hd : st.dirs.contains
      (if moduleName.isEmpty then outputDir
       else combinePath outputDir moduleName) = true
  · simp only [hd, if_true]
    cases hf : hashFind st.files
        (combinePath
          (if moduleName.isEmpty then outputDir
           else combinePath outputDir moduleName)
          (fileName ++ ".lua".toList)) with
    | none =>
      exact ⟨hashAdd st.files _ content, rfl, hashFind_hashAdd_self _ _ _⟩
    | some ex =>
      by_cases he : ex = content
      · subst he
        exact ⟨st.files, by simp, hf⟩
      · exact ⟨hashAdd st.files _ content, by simp [he],
          hashFind_hashAdd_self _ _ _⟩
  · rw [if_neg hd]
    dsimp only
    cases hf : hashFind st.files
        (combinePath
          (if moduleName.isEmpty then outputDir
           else combinePath outputDir moduleName)
          (fileName ++ ".lua".toList)) with
    | none =>
      refine ⟨hashAdd st.files _ content, ?_, hashFind_hashAdd_self _ _ _⟩
      rw [if_neg hd]
    | some ex =>
      by_cases he : ex = content
      · subst he
        refine ⟨st.files, ?_, hf⟩
        rw [if_neg hd]
        simp
      · refine ⟨hashAdd st.files _ content, ?_, hashFind_hashAdd_self _ _ _⟩
        rw [if_neg hd]
        simp [he]

/-- Helper for C10: appending an element makes `contains` find it. -/
theorem contains_append_singleton (l : List Str) (a : Str) :
    (l ++ [a]).contains a = true :=
  List.elem_iff.mpr (List.mem_append_right l (List.mem_singleton_self a))

/-- C10: `SaveFile` is idempotent on the output file: when the target
`.lua` file already exists with exactly the content being saved (and its
directory exists), `SaveFile` returns without performing any write, so
saving the same content twice leaves the modelled file system unchanged
after the first save. -/
theorem saveFile_idempotent :
    (∀ (outputDir : Str) (st : MgrState) (moduleName fileName : Str)
        (content : String),
      st.dirs.contains
        (if moduleName.isEmpty then outputDir
         else combinePath outputDir moduleName) = true →
      hashFind st.files
        (combinePath
          (if moduleName.isEmpty then outputDir
           else combinePath outputDir moduleName)
          (fileName ++ ".lua".toList)) = some content →
      SaveFile outputDir st moduleName fileName content = st)
    ∧ (∀ (outputDir : Str) (st : MgrState) (moduleName fileName : Str)
        (content : String),
      SaveFile outputDir (SaveFile outputDir st moduleName fileName content)
          moduleName fileName content =
        SaveFile outputDir st moduleName fileName content) := by
  constructor
  · exact saveFile_noWrite
  · intro outputDir st moduleName fileName content
    rcases saveFile_spec outputDir st moduleName fileName content with
      ⟨fls, heq, hfind⟩
    apply saveFile_noWrite
    · rw [heq]
      by_cases hd : st.dirs.contains
          (if moduleName.isEmpty then outputDir
           else combinePath outputDir moduleName) = true
      · rw [if_pos hd]
        exact hd
      · rw [if_neg hd]
        exact contains_append_singleton _ _
    · rw [heq]
      exact hfind

/-- Witness for C10 at a concrete saved state. -/
theorem saveFile_idempotent_witness :
    SaveFile "Out".toList mgrSaved "M".toList "F".toList "c" = mgrSaved :=
  saveFile_idempotent.1 "Out".toList mgrSaved "M".toList "F".toList "c"
    (by decide) (by decide)

/-- Helper for C9: a blueprint export whose emitter produces no output
changes nothing (no file write, no cache update). -/
theorem exportBlueprint_emptyOutput (env : Env) (gens : Gens)
    (outputDir nowStr : Str) (st : MgrState) (bp : BlueprintM)
    (h : gens.generateBlueprint bp = "") :
    ExportBlueprint env gens outputDir nowStr st (some bp) = st := by
  unfold ExportBlueprint
  by_cases hc : bp.hasGeneratedClass = true
  · simp [hc, h]
  · simp [hc]

/-- Helper for C9: a native-type export whose emitter produces no output
changes nothing. -/
theorem exportNativeType_emptyOutput (env : Env) (gens : Gens)
    (outputDir : Str) (nowSec : Nat) (st : MgrState) (f' : FieldM)
    (h : nativeLuaCode gens f' = "") :
    ExportNativeType env gens outputDir nowSec st (some f') = st := by
  unfold ExportNativeType
  by_cases hv : IsValidFieldForExport (some f') = true
  · simp [hv, h]
  · simp [hv]

/-- C9: when an individual emitter call fails (produces empty output), the
single item's export is a no-op: the state — in particular the hash cache —
is unchanged, the batch fold continues with the remaining items, and the
item's re-export decision is unchanged, so it remains pending for the next
scan. -/
theorem emitterFailure_skipsItem :
    (∀ (env : Env) (gens : Gens) (outputDir nowStr : Str) (st : MgrState)
        (bp : BlueprintM),
      gens.generateBlueprint bp = "" →
      ExportBlueprint env gens outputDir nowStr st (some bp) = st)
    ∧ (∀ (env : Env) (gens : Gens) (outputDir : Str) (nowSec : Nat)
        (st : MgrState) (f' : FieldM),
      nativeLuaCode gens f' = "" →
      ExportNativeType env gens outputDir nowSec st (some f') = st)
    ∧ (∀ (env : Env) (gens : Gens) (outputDir nowStr : Str)
        (load : Str → Option BlueprintM) (st : MgrState) (xs ys : List Str)
        (p : Str) (bp : BlueprintM),
      load p = some bp →
      gens.generateBlueprint bp = "" →
      exportBlueprintBatch env gens outputDir nowStr load st (xs ++ p :: ys) =
        exportBlueprintBatch env gens outputDir nowStr load
          (exportBlueprintBatch env gens outputDir nowStr load st xs) ys)
    ∧ (∀ (env : Env) (gens : Gens) (outputDir nowStr : Str) (st : MgrState)
        (bp : BlueprintM) (k : Str) (h : String),
      gens.generateBlueprint bp = "" →
      ShouldReexportByHash
          (ExportBlueprint env gens outputDir nowStr st (some bp)).cache k h =
        ShouldReexportByHash st.cache k h) := by
  refine ⟨exportBlueprint_emptyOutput, exportNativeType_emptyOutput, ?_, ?_⟩
  · intro env gens outputDir nowStr load st xs ys p bp hload hgen
    unfold exportBlueprintBatch
    rw [List.foldl_append, List.foldl_cons]
    simp only [hload]
    rw [exportBlueprint_emptyOutput env gens outputDir nowStr _ bp hgen]
  · intro env gens outputDir nowStr st bp k h hgen
    rw [exportBlueprint_emptyOutput env gens outputDir nowStr st bp hgen]

/-- Witness for C9 with the always-empty emitters at concrete inputs. -/
theorem emitterFailure_skipsItem_witness :
    ExportBlueprint envGame gensEmpty "Out".toList "T".toList mgr0
        (some bpSample) = mgr0
    ∧ ExportNativeType envGame gensEmpty "Out".toList 0 mgr0
        (some fieldPlain) = mgr0 :=
  ⟨emitterFailure_skipsItem.1 envGame gensEmpty "Out".toList "T".toList mgr0
      bpSample rfl,
   emitterFailure_skipsItem.2.1 envGame gensEmpty "Out".toList 0 mgr0
      fieldPlain rfl⟩

/-- Helper for C7: behaviour of the blueprint while-loop of
`ProcessFramedStep` — it preserves the arrays, the native cursor and the
flag, only advances the blueprint cursor, consumes exactly the advanced
distance from the budget, and leaves budget over only when the cursor hit
the end of its array. -/
theorem frameLoopBP_spec (env : Env) (gens : Gens) (outputDir nowStr : Str)
    (load : Str → Option BlueprintM) :
    ∀ (budget : Nat) (fs : FramedState),
      (frameLoopBP env gens outputDir nowStr load budget fs).1.bpAssets =
          fs.bpAssets
      ∧ (frameLoopBP env gens outputDir nowStr load budget fs).1.ntTypes =
          fs.ntTypes
      ∧ (frameLoopBP env gens outputDir nowStr load budget fs).1.ntIdx =
          fs.ntIdx
      ∧ (frameLoopBP env gens outputDir nowStr load budget fs).1.inProgress =
          fs.inProgress
      ∧ fs.bpIdx ≤ (frameLoopBP env gens outputDir nowStr load budget fs).1.bpIdx
      ∧ (frameLoopBP env gens outputDir nowStr load budget fs).1.bpIdx -
            fs.bpIdx =
          budget - (frameLoopBP env gens outputDir nowStr load budget fs).2
      ∧ (frameLoopBP env gens outputDir nowStr load budget fs).2 ≤ budget
      ∧ (0 < (frameLoopBP env gens outputDir nowStr load budget fs).2 →
          fs.bpAssets.length ≤
            (frameLoopBP env gens outputDir nowStr load budget fs).1.bpIdx) := by
  intro budget
  induction budget with
  | zero =>
    intro fs
    simp [frameLoopBP]
  | succ n ih =>
    intro fs
    simp only [frameLoopBP]
    by_cases h : fs.bpIdx < fs.bpAssets.length
    · rw [dif_pos h]
      set fs' : FramedState :=
        { fs with
          mgr := processFramedBlueprint env gens outputDir nowStr load
            fs.mgr (fs.bpAssets.get ⟨fs.bpIdx, h⟩)
          bpIdx := fs.bpIdx + 1 } with hfs
      rcases ih fs' with ⟨h1, h2, h3, h4, h5, h6, h7, h8⟩
      have e1 : fs'.bpIdx = fs.bpIdx + 1 := rfl
      have e2 : fs'.ntIdx = fs.ntIdx := rfl
      have e3 : fs'.bpAssets = fs.bpAssets := rfl
      have e4 : fs'.ntTypes = fs.ntTypes := rfl
      have e5 : fs'.inProgress = fs.inProgress := rfl
      rw [e1] at h5 h6
      rw [e2] at h3
      rw [e3] at h1 h8
      rw [e4] at h2
      rw [e5] at h4
      refine ⟨h1, h2, h3, h4, by omega, by omega, by omega, h8⟩
    · rw [dif_neg h]
      refine ⟨rfl, rfl, rfl, rfl, le_rfl, ?_, le_rfl, ?_⟩
      · show fs.bpIdx - fs.bpIdx = (n + 1) - (n + 1)
        omega
      · intro _
        show fs.bpAssets.length ≤ fs.bpIdx
        omega

/-- Helper for C7: behaviour of the native-type while-loop of
`ProcessFramedStep`, mirroring `frameLoopBP_spec`. -/
theorem frameLoopNT_spec (env : Env) (gens : Gens) (outputDir : Str)
    (nowSec : Nat) :
    ∀ (budget : Nat) (fs : FramedState),
      (frameLoopNT env gens outputDir nowSec budget fs).1.bpAssets =
          fs.bpAssets
      ∧ (frameLoopNT env gens outputDir nowSec budget fs).1.ntTypes =
          fs.ntTypes
      ∧ (frameLoopNT env gens outputDir nowSec budget fs).1.bpIdx = fs.bpIdx
      ∧ (frameLoopNT env gens outputDir nowSec budget fs).1.inProgress =
          fs.inProgress
      ∧ fs.ntIdx ≤ (frameLoopNT env gens outputDir nowSec budget fs).1.ntIdx
      ∧ (frameLoopNT env gens outputDir nowSec budget fs).1.ntIdx - fs.ntIdx =
          budget - (frameLoopNT env gens outputDir nowSec budget fs).2
      ∧ (frameLoopNT env gens outputDir nowSec budget fs).2 ≤ budget
      ∧ (0 < (frameLoopNT env gens outputDir nowSec budget fs).2 →
          fs.ntTypes.length ≤
            (frameLoopNT env gens outputDir nowSec budget fs).1.ntIdx) := by
  intro budget
  induction budget with
  | zero =>
    intro fs
    simp [frameLoopNT]
  | succ n ih =>
    intro fs
    simp only [frameLoopNT]
    by_cases h : fs.ntIdx < fs.ntTypes.length
    · rw [dif_pos h]
      set fs' : FramedState :=
        { fs with
          mgr := ExportNativeType env gens outputDir nowSec fs.mgr
            (fs.ntTypes.get ⟨fs.ntIdx, h⟩)
          ntIdx := fs.ntIdx + 1 } with hfs
      rcases ih fs' with ⟨h1, h2, h3, h4, h5, h6, h7, h8⟩
      have e1 : fs'.ntIdx = fs.ntIdx + 1 := rfl
      have e2 : fs'.bpIdx = fs.bpIdx := rfl
      have e3 : fs'.bpAssets = fs.bpAssets := rfl
      have e4 : fs'.ntTypes = fs.ntTypes := rfl
      have e5 : fs'.inProgress = fs.inProgress := rfl
      rw [e1] at h5 h6
      rw [e2] at h3
      rw [e3] at h1
      rw [e4] at h2 h8
      rw [e5] at h4
      refine ⟨h1, h2, h3, h4, by omega, by omega, by omega, h8⟩
    · rw [dif_neg h]
      refine ⟨rfl, rfl, rfl, rfl, le_rfl, ?_, le_rfl, ?_⟩
      · show fs.ntIdx - fs.ntIdx = (n + 1) - (n + 1)
        omega
      · intro _
        show fs.ntTypes.length ≤ fs.ntIdx
        omega

/-- C7: one framed-drain invocation (while processing is in progress)
preserves the snapshot arrays, only increases the two cursor indices,
processes at most 5 items total across both arrays, and reports completion
(returns false) exactly when both cursors reach the ends of their arrays;
over 12 pending assets and 0 pending types the drain completes in exactly
3 invocations, processing 5, 5, and 2 items. -/
theorem processFramedStep_budget_and_scenario :
    (∀ (env : Env) (gens : Gens) (outputDir nowStr : Str) (nowSec : Nat)
        (load : Str → Option BlueprintM) (fs : FramedState),
      fs.inProgress = true →
      (ProcessFramedStep env gens outputDir nowStr nowSec load fs).2.bpAssets
          = fs.bpAssets
      ∧ (ProcessFramedStep env gens outputDir nowStr nowSec load fs).2.ntTypes
          = fs.ntTypes
      ∧ fs.bpIdx ≤
          (ProcessFramedStep env gens outputDir nowStr nowSec load fs).2.bpIdx
      ∧ fs.ntIdx ≤
          (ProcessFramedStep env gens outputDir nowStr nowSec load fs).2.ntIdx
      ∧ ((ProcessFramedStep env gens outputDir nowStr nowSec load fs).2.bpIdx
            - fs.bpIdx)
          + ((ProcessFramedStep env gens outputDir nowStr nowSec load fs).2.ntIdx
            - fs.ntIdx) ≤ 5
      ∧ ((ProcessFramedStep env gens outputDir nowStr nowSec load fs).1 = false
          ↔ (fs.bpAssets.length ≤
              (ProcessFramedStep env gens outputDir nowStr nowSec load fs).2.bpIdx
            ∧ fs.ntTypes.length ≤
              (ProcessFramedStep env gens outputDir nowStr nowSec load fs).2.ntIdx)))
    ∧ ((framedRun framed12).1 = true
      ∧ (framedRun framed12).2.bpIdx = 5
      ∧ (framedRun framed12).2.ntIdx = 0
      ∧ (framedRun (framedRun framed12).2).1 = true
      ∧ (framedRun (framedRun framed12).2).2.bpIdx = 10
      ∧ (framedRun (framedRun framed12).2).2.ntIdx = 0
      ∧ (framedRun (framedRun (framedRun framed12).2).2).1 = false
      ∧ (framedRun (framedRun (framedRun framed12).2).2).2.bpIdx = 12
      ∧ (framedRun (framedRun (framedRun framed12).2).2).2.ntIdx = 0) := by
  constructor
  · intro env gens outputDir nowStr nowSec load fs hp
    simp only [ProcessFramedStep, hp, Bool.not_true, Bool.false_eq_true,
      if_false]
    set r1 := frameLoopBP env gens outputDir nowStr load 5 fs with hr1
    set r2 := frameLoopNT env gens outputDir nowSec r1.2 r1.1 with hr2
    rcases frameLoopBP_spec env gens outputDir nowStr load 5 fs with
      ⟨a1, a2, a3, a4, a5, a6, a7, a8⟩
    rcases frameLoopNT_spec env gens outputDir nowSec r1.2 r1.1 with
      ⟨b1, b2, b3, b4, b5, b6, b7, b8⟩
    rw [← hr1] at a1 a2 a3 a4 a5 a6 a7 a8
    rw [← hr2] at b1 b2 b3 b4 b5 b6 b7 b8
    have hAbp : r2.1.bpAssets = fs.bpAssets := by rw [b1, a1]
    have hAnt : r2.1.ntTypes = fs.ntTypes := by rw [b2, a2]
    by_cases hcond :
        (r2.1.bpIdx ≥ r2.1.bpAssets.length && r2.1.ntIdx ≥ r2.1.ntTypes.length)
          = true
    · rw [if_pos hcond]
      simp only [ge_iff_le, Bool.and_eq_true_iff, decide_eq_true_eq] at hcond
      rw [hAbp, hAnt] at hcond
      refine ⟨?_, ?_, ?_, ?_, ?_, ?_⟩
      · show r2.1.bpAssets = fs.bpAssets
        exact hAbp
      · show r2.1.ntTypes = fs.ntTypes
        exact hAnt
      · show fs.bpIdx ≤ r2.1.bpIdx
        rw [b3]
        exact a5
      · show fs.ntIdx ≤ r2.1.ntIdx
        rw [← a3]
        exact b5
      · show (r2.1.bpIdx - fs.bpIdx) + (r2.1.ntIdx - fs.ntIdx) ≤ 5
        rw [b3]
        omega
      · show (false = false ↔
          fs.bpAssets.length ≤ r2.1.bpIdx ∧ fs.ntTypes.length ≤ r2.1.ntIdx)
        exact iff_of_true rfl hcond
    · rw [if_neg hcond]
      simp only [ge_iff_le, Bool.and_eq_true_iff, decide_eq_true_eq] at hcond
      rw [hAbp, hAnt] at hcond
      refine ⟨?_, ?_, ?_, ?_, ?_, ?_⟩
      · show r2.1.bpAssets = fs.bpAssets
        exact hAbp
      · show r2.1.ntTypes = fs.ntTypes
        exact hAnt
      · show fs.bpIdx ≤ r2.1.bpIdx
        rw [b3]
        exact a5
      · show fs.ntIdx ≤ r2.1.ntIdx
        rw [← a3]
        exact b5
      · show (r2.1.bpIdx - fs.bpIdx) + (r2.1.ntIdx - fs.ntIdx) ≤ 5
        rw [b3]
        omega
      · show (true = false ↔
          fs.bpAssets.length ≤ r2.1.bpIdx ∧ fs.ntTypes.length ≤ r2.1.ntIdx)
        exact iff_of_false (by intro hcon; cases hcon) hcond
  · refine ⟨by decide, by decide, by decide, by decide, by decide, by decide,
      by decide, by decide, by decide⟩

/-- Witness for C7: the general budget facts applied to the concrete
scenario start state. -/
theorem processFramedStep_budget_and_scenario_witness :
    (ProcessFramedStep envGame gensEmpty "Out".toList "T".toList 0
        (fun _ => none) framed12).2.bpAssets = framed12.bpAssets
    ∧ (ProcessFramedStep envGame gensEmpty "Out".toList "T".toList 0
        (fun _ => none) framed12).2.ntTypes = framed12.ntTypes
    ∧ framed12.bpIdx ≤
        (ProcessFramedStep envGame gensEmpty "Out".toList "T".toList 0
          (fun _ => none) framed12).2.bpIdx
    ∧ framed12.ntIdx ≤
        (ProcessFramedStep envGame gensEmpty "Out".toList "T".toList 0
          (fun _ => none) framed12).2.ntIdx
    ∧ ((ProcessFramedStep envGame gensEmpty "Out".toList "T".toList 0
          (fun _ => none) framed12).2.bpIdx - framed12.bpIdx)
        + ((ProcessFramedStep envGame gensEmpty "Out".toList "T".toList 0
          (fun _ => none) framed12).2.ntIdx - framed12.ntIdx) ≤ 5
    ∧ ((ProcessFramedStep envGame gensEmpty "Out".toList "T".toList 0
          (fun _ => none) framed12).1 = false
        ↔ (framed12.bpAssets.length ≤
            (ProcessFramedStep envGame gensEmpty "Out".toList "T".toList 0
              (fun _ => none) framed12).2.bpIdx
          ∧ framed12.ntTypes.length ≤
            (ProcessFramedStep envGame gensEmpty "Out".toList "T".toList 0
              (fun _ => none) framed12).2.ntIdx)) :=
  processFramedStep_budget_and_scenario.1 envGame gensEmpty "Out".toList
    "T".toList 0 (fun _ => none) framed12 rfl

/-- Helper for C6: with a memo whose entries for this field's key agree
with its structural hash, `GetCachedFieldHash` returns exactly the
structural hash, and every entry of the updated memo is an old entry or
the field's own freshly-stored entry. -/
theorem getCachedFieldHash_consistent (env : Env) (nowSec : Nat)
    (memo : Memo) (f' : FieldM)
    (hcons : ∀ e ∈ memo, e.1 = f'.pathName →
      e.2.1 = GetAssetHashField env (some f')) :
    (GetCachedFieldHash env nowSec memo (some f')).1 =
        GetAssetHashField env (some f')
    ∧ ∀ e ∈ (GetCachedFieldHash env nowSec memo (some f')).2,
        e ∈ memo ∨
          e = (f'.pathName, GetAssetHashField env (some f'), nowSec) := by
  cases hm : memoFind (CleanupExpiredHashCache nowSec memo) f'.pathName with
  | none =>
    constructor
    · simp [GetCachedFieldHash, hm]
    · intro e he
      simp only [GetCachedFieldHash, hm] at he
      rcases mem_memoAdd _ _ _ _ _ he with h1 | h1
      · right; exact h1
      · left; exact List.mem_of_mem_filter h1
  | some v =>
    obtain ⟨h, t⟩ := v
    have hmem : (f'.pathName, h, t) ∈ memo :=
      List.mem_of_mem_filter (memoFind_mem _ _ _ hm)
    have hh : h = GetAssetHashField env (some f') := hcons _ hmem rfl
    by_cases ht : nowSec - t < 300
    · constructor
      · simp only [GetCachedFieldHash, hm]
        rw [if_pos ht]
        exact hh
      · intro e he
        simp only [GetCachedFieldHash, hm] at he
        rw [if_pos ht] at he
        left
        exact List.mem_of_mem_filter he
    · constructor
      · simp only [GetCachedFieldHash, hm]
        rw [if_neg ht]
      · intro e he
        simp only [GetCachedFieldHash, hm] at he
        rw [if_neg ht] at he
        rcases mem_memoAdd _ _ _ _ _ he with h1 | h1
        · right; exact h1
        · left; exact List.mem_of_mem_filter h1

/-- Helper for C6: the scan step for a present, unchanged blueprint pends
nothing and rewrites the asset's cache entry with its unchanged hash. -/
theorem scanBlueprintStep_unchanged (env : Env) (rules : List Str)
    (settings : SettingsM) (nowStr : Str) (cur : MgrState) (a : AssetDataM)
    (fp : Str) (h : String)
    (hexp : ShouldExportBlueprint rules settings a = true)
    (hconv : env.toFilename (normalizeAssetPath a.objectPath) = some fp)
    (hex : env.fileExists fp = true)
    (hcalc : CalculateFileHash env fp = h)
    (hne : h ≠ "")
    (hga : GetAssetHash env nowStr a.objectPath = h)
    (hfind : hashFind cur.cache a.objectPath = some h) :
    scanBlueprintStep env rules settings nowStr cur a =
      { cur with cache := hashAdd cur.cache a.objectPath h } := by
  have hnore : ShouldReexportByHash cur.cache a.objectPath h = false := by
    simp [ShouldReexportByHash, hfind]
  have hadd : AddToPendingBlueprints env rules settings cur a = (false, cur) := by
    by_cases hmem : a.objectPath ∈ cur.pendingBP
    · simp [AddToPendingBlueprints, hexp, hmem]
    · have hre : ShouldReexport env cur.cache a.objectPath fp = false := by
        simp only [ShouldReexport, hcalc]
        rw [if_neg hne]
        exact hnore
      simp [AddToPendingBlueprints, hexp, hmem, hconv, hex, hre]
  simp [scanBlueprintStep, hadd, hga, hne, UpdateExportCacheByHash]

/-- Helper for C6: the blueprint decision loop over assets that are all
present and unchanged pends nothing, touches neither memo nor output
files, and leaves the cache pointwise unchanged. -/
theorem scanBlueprintFold_unchanged (env : Env) (rules : List Str)
    (settings : SettingsM) (nowStr : Str) (fpOf : AssetDataM → Str)
    (hOf : AssetDataM → String) (base : HashCache) :
    ∀ (l : List AssetDataM) (cur : MgrState),
      (∀ a ∈ l,
        ShouldExportBlueprint rules settings a = true ∧
        env.toFilename (normalizeAssetPath a.objectPath) = some (fpOf a) ∧
        env.fileExists (fpOf a) = true ∧
        CalculateFileHash env (fpOf a) = hOf a ∧
        hOf a ≠ "" ∧
        GetAssetHash env nowStr a.objectPath = hOf a ∧
        hashFind base a.objectPath = some (hOf a)) →
      (∀ k, hashFind cur.cache k = hashFind base k) →
      (List.foldl (scanBlueprintStep env rules settings nowStr) cur l).pendingBP
          = cur.pendingBP
      ∧ (List.foldl (scanBlueprintStep env rules settings nowStr) cur l).pendingNT
          = cur.pendingNT
      ∧ (List.foldl (scanBlueprintStep env rules settings nowStr) cur l).memo
          = cur.memo
      ∧ (List.foldl (scanBlueprintStep env rules settings nowStr) cur l).dirs
          = cur.dirs
      ∧ (List.foldl (scanBlueprintStep env rules settings nowStr) cur l).files
          = cur.files
      ∧ (∀ k,
          hashFind
            (List.foldl (scanBlueprintStep env rules settings nowStr) cur l).cache
            k = hashFind base k) := by
  intro l
  induction l with
  | nil =>
    intro cur _ hcache
    exact ⟨rfl, rfl, rfl, rfl, rfl, hcache⟩
  | cons a rest ih =>
    intro cur hl hcache
    rcases hl a (List.mem_cons_self a rest) with
      ⟨hexp, hconv, hex, hcalc, hne, hga, hbase⟩
    have hfind : hashFind cur.cache a.objectPath = some (hOf a) := by
      rw [hcache]; exact hbase
    rw [List.foldl_cons,
      scanBlueprintStep_unchanged env rules settings nowStr cur a (fpOf a)
        (hOf a) hexp hconv hex hcalc hne hga hfind]
    have hcache' : ∀ k,
        hashFind (hashAdd cur.cache a.objectPath (hOf a)) k =
          hashFind base k := by
      intro k
      rw [hashFind_hashAdd_of_find _ _ _ _ hfind]
      exact hcache k
    exact ih { cur with cache := hashAdd cur.cache a.objectPath (hOf a) }
      (fun a' ha' => hl a' (List.mem_cons_of_mem _ ha')) hcache'

/-- Helper for C6: the scan step for a valid, unchanged native type pends
nothing, stores the memoized hash, and rewrites the cache entry with the
unchanged structural hash. -/
theorem scanNativeStep_unchanged (env : Env) (nowSec : Nat) (cur : MgrState)
    (f' : FieldM)
    (hvalid : IsValidFieldForExport (some f') = true)
    (hcons : ∀ e ∈ cur.memo, e.1 = f'.pathName →
      e.2.1 = GetAssetHashField env (some f'))
    (hfind : hashFind cur.cache f'.pathName =
      some (GetAssetHashField env (some f'))) :
    scanNativeStep env nowSec cur (some f') =
      { cur with
        memo := (GetCachedFieldHash env nowSec cur.memo (some f')).2
        cache := hashAdd cur.cache f'.pathName
          (GetAssetHashField env (some f')) } := by
  obtain ⟨hval, -⟩ := getCachedFieldHash_consistent env nowSec cur.memo f' hcons
  have hre : ShouldReexportByHash cur.cache f'.pathName
      (GetAssetHashField env (some f')) = false := by
    simp [ShouldReexportByHash, hfind]
  simp [scanNativeStep, hvalid, hval, hre, UpdateExportCacheByHash]

/-- Helper for C6: the native-type decision loop over valid, unchanged
fields pends nothing, leaves the cache pointwise unchanged, and keeps the
memo consistent for every tracked field. -/
theorem scanNativeFold_unchanged (env : Env) (nowSec : Nat)
    (base : HashCache) (L : List (Option FieldM))
    (hL : ∀ g ∈ L, ∃ f', g = some f' ∧
      IsValidFieldForExport (some f') = true ∧
      hashFind base f'.pathName = some (GetAssetHashField env (some f')))
    (hinj : ∀ g1 ∈ L, ∀ g2 ∈ L, ∀ f1 f2, g1 = some f1 → g2 = some f2 →
      f1.pathName = f2.pathName →
      GetAssetHashField env (some f1) = GetAssetHashField env (some f2)) :
    ∀ (l : List (Option FieldM)) (cur : MgrState),
      (∀ g ∈ l, g ∈ L) →
      (∀ g ∈ L, ∀ f', g = some f' →
        ∀ e ∈ cur.memo, e.1 = f'.pathName →
          e.2.1 = GetAssetHashField env (some f')) →
      (∀ k, hashFind cur.cache k = hashFind base k) →
      (List.foldl (scanNativeStep env nowSec) cur l).pendingBP = cur.pendingBP
      ∧ (List.foldl (scanNativeStep env nowSec) cur l).pendingNT = cur.pendingNT
      ∧ (List.foldl (scanNativeStep env nowSec) cur l).dirs = cur.dirs
      ∧ (List.foldl (scanNativeStep env nowSec) cur l).files = cur.files
      ∧ (∀ k, hashFind (List.foldl (scanNativeStep env nowSec) cur l).cache k
          = hashFind base k)
      ∧ (∀ g ∈ L, ∀ f', g = some f' →
          ∀ e ∈ (List.foldl (scanNativeStep env nowSec) cur l).memo,
            e.1 = f'.pathName → e.2.1 = GetAssetHashField env (some f')) := by
  intro l
  induction l with
  | nil =>
    intro cur _ hcons hcache
    exact ⟨rfl, rfl, rfl, rfl, hcache, hcons⟩
  | cons g rest ih =>
    intro cur hsub hcons hcache
    have hgL : g ∈ L := hsub g (List.mem_cons_self g rest)
    rcases hL g hgL with ⟨f', rfl, hvalid, hbase⟩
    have hconsf : ∀ e ∈ cur.memo, e.1 = f'.pathName →
        e.2.1 = GetAssetHashField env (some f') :=
      hcons _ hgL f' rfl
    have hfind : hashFind cur.cache f'.pathName =
        some (GetAssetHashField env (some f')) := by
      rw [hcache]; exact hbase
    rw [List.foldl_cons,
      scanNativeStep_unchanged env nowSec cur f' hvalid hconsf hfind]
    obtain ⟨-, hmemNew⟩ :=
      getCachedFieldHash_consistent env nowSec cur.memo f' hconsf
    have hcons' : ∀ g2 ∈ L, ∀ f2, g2 = some f2 →
        ∀ e ∈ (GetCachedFieldHash env nowSec cur.memo (some f')).2,
          e.1 = f2.pathName → e.2.1 = GetAssetHashField env (some f2) := by
      intro g2 hg2 f2 hf2 e he hkey
      rcases hmemNew e he with hold | hnew
      · exact hcons g2 hg2 f2 hf2 e hold hkey
      · subst hnew
        have hpn : f'.pathName = f2.pathName := hkey
        exact (hinj _ hgL _ hg2 f' f2 rfl hf2 hpn).symm ▸
          (hinj _ hgL _ hg2 f' f2 rfl hf2 hpn)
    have hcache' : ∀ k,
        hashFind
          (hashAdd cur.cache f'.pathName (GetAssetHashField env (some f'))) k
          = hashFind base k := by
      intro k
      rw [hashFind_hashAdd_of_find _ _ _ _ hfind]
      exact hcache k
    exact ih
      { cur with
        memo := (GetCachedFieldHash env nowSec cur.memo (some f')).2
        cache := hashAdd cur.cache f'.pathName
          (GetAssetHashField env (some f')) }
      (fun g' hg' => hsub g' (List.mem_cons_of_mem _ hg')) hcons' hcache'

/-- C6: when every scanned artifact is present and unchanged (its fresh
fingerprint equals its cached fingerprint), the decision pass decides
`ShouldReexport = false` for each of them, adds nothing to either pending
collection, and still performs the cache update for each identifier (the
entry keeps its fresh hash); consequently a second decision pass over the
same unchanged artifacts — at any later clock readings — again yields
empty pending collections. -/
theorem scanPass_unchanged_idempotent (env : Env) (rules : List Str)
    (settings : SettingsM) (nowStr nowStr2 : Str) (nowSec nowSec2 : Nat)
    (st : MgrState) (bps : List AssetDataM) (nts : List (Option FieldM))
    (fpOf : AssetDataM → Str) (hOf : AssetDataM → String)
    (hbp : ∀ a ∈ bps,
      ShouldExportBlueprint rules settings a = true ∧
      env.toFilename (normalizeAssetPath a.objectPath) = some (fpOf a) ∧
      env.fileExists (fpOf a) = true ∧
      CalculateFileHash env (fpOf a) = hOf a ∧
      hOf a ≠ "" ∧
      (∀ ns : Str, GetAssetHash env ns a.objectPath = hOf a) ∧
      hashFind st.cache a.objectPath = some (hOf a))
    (hnt : ∀ g ∈ nts, ∃ f', g = some f' ∧
      IsValidFieldForExport (some f') = true ∧
      hashFind st.cache f'.pathName =
        some (GetAssetHashField env (some f')))
    (hmemo : ∀ g ∈ nts, ∀ f', g = some f' →
      ∀ e ∈ st.memo, e.1 = f'.pathName →
        e.2.1 = GetAssetHashField env (some f'))
    (hinj : ∀ g1 ∈ nts, ∀ g2 ∈ nts, ∀ f1 f2, g1 = some f1 → g2 = some f2 →
      f1.pathName = f2.pathName →
      GetAssetHashField env (some f1) = GetAssetHashField env (some f2)) :
    (∀ a ∈ bps, ShouldReexportByHash st.cache a.objectPath (hOf a) = false)
    ∧ (scanPass env rules settings nowStr nowSec st bps nts).pendingBP = []
    ∧ (scanPass env rules settings nowStr nowSec st bps nts).pendingNT = []
    ∧ (∀ a ∈ bps,
        hashFind (scanPass env rules settings nowStr nowSec st bps nts).cache
          a.objectPath = some (hOf a))
    ∧ (scanPass env rules settings nowStr2 nowSec2
        (scanPass env rules settings nowStr nowSec st bps nts) bps
        nts).pendingBP = []
    ∧ (scanPass env rules settings nowStr2 nowSec2
        (scanPass env rules settings nowStr nowSec st bps nts) bps
        nts).pendingNT = [] := by
  have hbp1 : ∀ a ∈ bps,
      ShouldExportBlueprint rules settings a = true ∧
      env.toFilename (normalizeAssetPath a.objectPath) = some (fpOf a) ∧
      env.fileExists (fpOf a) = true ∧
      CalculateFileHash env (fpOf a) = hOf a ∧
      hOf a ≠ "" ∧
      GetAssetHash env nowStr a.objectPath = hOf a ∧
      hashFind st.cache a.objectPath = some (hOf a) := by
    intro a ha
    rcases hbp a ha with ⟨h1, h2, h3, h4, h5, h6, h7⟩
    exact ⟨h1, h2, h3, h4, h5, h6 nowStr, h7⟩
  have hbp2 : ∀ a ∈ bps,
      ShouldExportBlueprint rules settings a = true ∧
      env.toFilename (normalizeAssetPath a.objectPath) = some (fpOf a) ∧
      env.fileExists (fpOf a) = true ∧
      CalculateFileHash env (fpOf a) = hOf a ∧
      hOf a ≠ "" ∧
      GetAssetHash env nowStr2 a.objectPath = hOf a ∧
      hashFind st.cache a.objectPath = some (hOf a) := by
    intro a ha
    rcases hbp a ha with ⟨h1, h2, h3, h4, h5, h6, h7⟩
    exact ⟨h1, h2, h3, h4, h5, h6 nowStr2, h7⟩
  obtain ⟨p1, p2, p3, p4, p5, p6⟩ :=
    scanBlueprintFold_unchanged env rules settings nowStr fpOf hOf st.cache
      bps { st with pendingBP := [], pendingNT := [] } hbp1 (fun _ => rfl)
  have hcons1 : ∀ g ∈ nts, ∀ f', g = some f' →
      ∀ e ∈ (List.foldl (scanBlueprintStep env rules settings nowStr)
        { st with pendingBP := [], pendingNT := [] } bps).memo,
        e.1 = f'.pathName → e.2.1 = GetAssetHashField env (some f') := by
    intro g hg f' hf' e he hk
    rw [p3] at he
    exact hmemo g hg f' hf' e he hk
  obtain ⟨q1, q2, q3, q4, q5, q6⟩ :=
    scanNativeFold_unchanged env nowSec st.cache nts hnt hinj nts
      (List.foldl (scanBlueprintStep env rules settings nowStr)
        { st with pendingBP := [], pendingNT := [] } bps)
      (fun _ hg => hg) hcons1 p6
  have hA : scanPass env rules settings nowStr nowSec st bps nts =
      List.foldl (scanNativeStep env nowSec)
        (List.foldl (scanBlueprintStep env rules settings nowStr)
          { st with pendingBP := [], pendingNT := [] } bps) nts := rfl
  obtain ⟨p1', p2', p3', p4', p5', p6'⟩ :=
    scanBlueprintFold_unchanged env rules settings nowStr2 fpOf hOf st.cache
      bps
      { (List.foldl (scanNativeStep env nowSec)
          (List.foldl (scanBlueprintStep env rules settings nowStr)
            { st with pendingBP := [], pendingNT := [] } bps) nts) with
        pendingBP := [], pendingNT := [] }
      hbp2 (fun k => q5 k)
  have hcons2 : ∀ g ∈ nts, ∀ f', g = some f' →
      ∀ e ∈ (List.foldl (scanBlueprintStep env rules settings nowStr2)
        { (List.foldl (scanNativeStep env nowSec)
            (List.foldl (scanBlueprintStep env rules settings nowStr)
              { st with pendingBP := [], pendingNT := [] } bps) nts) with
          pendingBP := [], pendingNT := [] } bps).memo,
        e.1 = f'.pathName → e.2.1 = GetAssetHashField env (some f') := by
    intro g hg f' hf' e he hk
    rw [p3'] at he
    exact q6 g hg f' hf' e he hk
  obtain ⟨r1, r2, r3, r4, r5, r6⟩ :=
    scanNativeFold_unchanged env nowSec2 st.cache nts hnt hinj nts
      (List.foldl (scanBlueprintStep env rules settings nowStr2)
        { (List.foldl (scanNativeStep env nowSec)
            (List.foldl (scanBlueprintStep env rules settings nowStr)
              { st with pendingBP := [], pendingNT := [] } bps) nts) with
          pendingBP := [], pendingNT := [] } bps)
      (fun _ hg => hg) hcons2 p6'
  have hB : scanPass env rules settings nowStr2 nowSec2
      (scanPass env rules settings nowStr nowSec st bps nts) bps nts =
      List.foldl (scanNativeStep env nowSec2)
        (List.foldl (scanBlueprintStep env rules settings nowStr2)
          { (List.foldl (scanNativeStep env nowSec)
              (List.foldl (scanBlueprintStep env rules settings nowStr)
                { st with pendingBP := [], pendingNT := [] } bps) nts) with
            pendingBP := [], pendingNT := [] } bps) nts := rfl
  refine ⟨?_, ?_, ?_, ?_, ?_, ?_⟩
  · intro a ha
    rcases hbp a ha with ⟨-, -, -, -, -, -, h7⟩
    simp [ShouldReexportByHash, h7]
  · rw [hA, q1, p1]
  · rw [hA, q2, p2]
  · intro a ha
    rw [hA, q5]
    rcases hbp a ha with ⟨-, -, -, -, -, -, h7⟩
    exact h7
  · rw [hB, r1, p1']
  · rw [hB, r2, p2']

/-- Witness for C6: a concrete unchanged blueprint and native field, the
cache already holding their fingerprints — both decision passes (at
different clock readings) pend nothing. -/
theorem scanPass_unchanged_idempotent_witness :
    (scanPass envGame [] settingsOn "t1".toList 0 stUnchanged [assetGame]
        [some fieldPlain]).pendingBP = []
    ∧ (scanPass envGame [] settingsOn "t1".toList 0 stUnchanged [assetGame]
        [some fieldPlain]).pendingNT = []
    ∧ (scanPass envGame [] settingsOn "t2".toList 400
        (scanPass envGame [] settingsOn "t1".toList 0 stUnchanged [assetGame]
          [some fieldPlain]) [assetGame] [some fieldPlain]).pendingBP = []
    ∧ (scanPass envGame [] settingsOn "t2".toList 400
        (scanPass envGame [] settingsOn "t1".toList 0 stUnchanged [assetGame]
          [some fieldPlain]) [assetGame] [some fieldPlain]).pendingNT = [] := by
  obtain ⟨-, h2, h3, -, h5, h6⟩ :=
    scanPass_unchanged_idempotent envGame [] settingsOn "t1".toList
      "t2".toList 0 400 stUnchanged [assetGame] [some fieldPlain]
      (fun _ => "Content/F.uasset".toList) (fun _ => "aaaa")
      (by
        intro a ha
        rw [List.mem_singleton] at ha
        subst ha
        exact ⟨by decide, by decide, by decide, by decide, by decide,
          fun ns => rfl, by decide⟩)
      (by
        intro g hg
        rw [List.mem_singleton] at hg
        subst hg
        exact ⟨fieldPlain, rfl, by decide, by decide⟩)
      (by
        intro g hg f' hf' e he hk
        cases he)
      (by
        intro g1 hg1 g2 hg2 f1 f2 hf1 hf2 hp
        rw [List.mem_singleton] at hg1 hg2
        subst hg1
        subst hg2
        injection hf1 with hf1'
        injection hf2 with hf2'
        subst hf1'
        subst hf2'
        rfl)
  exact ⟨h2, h3, h5, h6⟩

end EmmyLua
